import Mathlib

/-!
Shallow embedding of the SiddiqSoft asynchrony-lib primitives
(`basic_worker`, `simple_worker`, `periodic_worker`, `basic_pool`,
`simple_pool`, `roundrobin_pool`, `resource_pool`) and proofs of the
behavioural properties claimed by the specification.

Each definition is translated from the corresponding C++ source:
queues (`std::deque`) become Lean lists with front at the head,
the counting semaphore becomes a natural-number counter with the
release precondition of the C++ standard made explicit, and the
consumer-loop bodies become step functions on explicit state.
-/

namespace AsynchronyLib

/-! ## Round-robin (partitioned) pool: `roundrobin_pool.hpp` -/

/-- State of a `roundrobin_pool` relevant to routing: the saved
`workersSize` and the shared monotonic `queueCounter` (an
`std::atomic_uint64_t` starting at 0). -/
structure RRPool where
  workersSize : Nat
  queueCounter : Nat
deriving Repr, DecidableEq

/-- Embeds `roundrobin_pool::nextWorkerIndex` (roundrobin_pool.hpp lines 121-124):
`workersSize == 0 ? 0 : queueCounter.load() % workersSize`. -/
def nextWorkerIndex (p : RRPool) : Nat :=
  if p.workersSize = 0 then 0 else p.queueCounter % p.workersSize

/-- Embeds `roundrobin_pool::queue` (roundrobin_pool.hpp lines 83-89): first
`++queueCounter`, then route the item to `workers.at(nextWorkerIndex())`.
Returns the chosen worker index together with the updated pool state. -/
def rrQueue (p : RRPool) : Nat × RRPool :=
  let p' : RRPool := { p with queueCounter := p.queueCounter + 1 }
  (nextWorkerIndex p', p')

/-- Worker indices chosen for `m` successive `queue` calls by a single
producer, in enqueue order. -/
def rrRoutes (p : RRPool) : Nat → List Nat
  | 0 => []
  | m + 1 =>
    let r := rrQueue p
    r.1 :: rrRoutes r.2 m

/-- A freshly constructed pool of `n` workers: `queueCounter {0}`. -/
def rrFresh (n : Nat) : RRPool := ⟨n, 0⟩

theorem rrRoutes_eq (p : RRPool) (m : Nat) :
    rrRoutes p m = (List.range m).map
      (fun k => if p.workersSize = 0 then 0
                else (p.queueCounter + k + 1) % p.workersSize) := by
  induction m generalizing p with
  | zero => simp [rrRoutes]
  | succ m ih =>
    rw [List.range_succ_eq_map]
    simp only [rrRoutes, rrQueue, nextWorkerIndex, List.map_cons, List.map_map]
    refine congrArg₂ List.cons (by simp) ?_
    rw [ih]
    apply List.map_congr_left
    intro k _
    simp only [Function.comp_apply]
    have h : p.queueCounter + 1 + k + 1 = p.queueCounter + (k + 1) + 1 := by omega
    rw [h]

/-! ## Resource pool: `siddiqsoft/resource_pool.hpp`

`_pool` is an `std::deque<T>`, modelled as a list with the deque's front at
the head.  All operations run under the recursive mutex; in this sequential
embedding the lock acquisition is implicit. -/

/-- The exception text thrown by `resource_pool::checkout` on an empty pool
(resource_pool.hpp line 98). -/
def emptyPoolMsg : String := "Empty pool; add something first!"

/-- Embeds `resource_pool::checkout` (resource_pool.hpp lines 91-99): if the pool is
non-empty, return `std::move(_pool.front())` while a scope guard pops the
front on exit; otherwise throw `std::runtime_error(emptyPoolMsg)`.
Returns the outcome together with the pool state after the call. -/
def checkout {T : Type} (pool : List T) : Except String T × List T :=
  if h : pool.isEmpty then (.error emptyPoolMsg, pool)
  else (.ok (pool.head (by simpa [List.isEmpty_iff] using h)), pool.tail)

/-- Embeds `resource_pool::checkin` (resource_pool.hpp lines 106-111):
`_pool.push_back(std::move(rsrc))`; always succeeds. -/
def checkin {T : Type} (pool : List T) (rsrc : T) : List T :=
  pool ++ [rsrc]

/-! ## Claim theorems C1-C3 -/

/-- C1 counterexample: on a fresh 2-worker `roundrobin_pool`, the first
enqueued item (k = 0) is routed to worker 1, because `queue` increments
`queueCounter` to 1 *before* `nextWorkerIndex` computes `counter % N`;
the claim's `k mod N` would be worker `0 % 2 = 0`. -/
theorem rr_first_item_not_worker_zero :
    rrRoutes (rrFresh 2) 1 = [1] ∧ (0 : Nat) % 2 = 0 ∧ (1 : Nat) ≠ 0 % 2 := by
  refine ⟨?_, rfl, by decide⟩
  rfl

/-- C1 (amended): `queue` increments the shared monotonic counter first and
then routes by `counter % N`, so item `k` (0-indexed in enqueue order) from a
single producer is routed to worker `(k + 1) % N` — not `k % N`; when `N = 0`
the routing index is 0.  Routing remains a pure function of the enqueue
sequence number. -/
theorem rr_routing_of_sequence_number (n m : Nat) :
    rrRoutes (rrFresh n) m =
      (List.range m).map (fun k => if n = 0 then 0 else (k + 1) % n) := by
  rw [rrRoutes_eq]
  apply List.map_congr_left
  intro k _
  simp only [rrFresh]
  rw [Nat.zero_add]

/-- C2: `checkout()` on a pool of size 0 fails with the "empty pool" error
and leaves the pool state unchanged; on any non-empty pool it removes and
returns the front item. -/
theorem checkout_empty_fails_nonempty_pops (T : Type) :
    (∀ pool : List T, pool.length = 0 →
        checkout pool = (.error emptyPoolMsg, pool)) ∧
    (∀ (x : T) (rest : List T), checkout (x :: rest) = (.ok x, rest)) := by
  constructor
  · intro pool h
    rw [List.length_eq_zero] at h
    subst h
    rfl
  · intro x rest
    rfl

/-- C2 witness: evaluated on the empty pool and on the pool `[7, 3]`. -/
theorem checkout_empty_fails_nonempty_pops_w :
    checkout ([] : List Nat) = (.error emptyPoolMsg, []) ∧
    checkout [7, 3] = (.ok 7, [3]) :=
  ⟨(checkout_empty_fails_nonempty_pops Nat).1 [] rfl,
   (checkout_empty_fails_nonempty_pops Nat).2 7 [3]⟩

/-- C3 counterexample: on the pool `[0]`, `checkin 1` then `checkout`
returns `0`, the pre-existing front, not the just-checked-in `1`:
`checkin` appends to the back while `checkout` removes the front. -/
theorem checkin_checkout_not_roundtrip :
    (checkout (checkin [0] 1)).1 = .ok 0 ∧ (0 : Nat) ≠ 1 := by
  exact ⟨rfl, by decide⟩

/-- C3 (amended): after `checkin x; y = checkout()`, the checkout succeeds,
the pool size equals its size before the pair, and `y` is the *oldest*
element of the pool after the checkin — i.e. `y = x` exactly when the pool
was empty before the checkin, and otherwise `y` is the pool's previous
front. -/
theorem checkin_checkout_fifo (T : Type) (pool : List T) (x : T) :
    (checkout (checkin pool x)).1 = .ok (pool.headD x) ∧
    (checkout (checkin pool x)).2.length = pool.length := by
  cases pool with
  | nil => exact ⟨rfl, rfl⟩
  | cons y rest =>
    constructor
    · simp [checkout, checkin]
    · simp [checkout, checkin]

/-! ## Consumer loops: `basic_worker.hpp` and `periodic_worker.hpp`

The callback is modelled by its outcome on each item: it either returns
normally or raises an exception of type `E`. -/

/-- Outcome of one callback invocation. -/
inductive CbOutcome (E : Type)
  | ok : CbOutcome E
  | exn : E → CbOutcome E
deriving Repr, DecidableEq

/-- Holds `true` when the invocation returned normally. -/
def CbOutcome.isOk {E : Type} : CbOutcome E → Bool
  | .ok => true
  | .exn _ => false

/-- Consumer-visible state of a `basic_worker`: its guarded deque. -/
structure BWState (T : Type) where
  items : List T
deriving Repr, DecidableEq

/-- One iteration of `basic_worker::processor`'s loop (basic_worker.hpp
lines 136-155).  Inputs: whether stop was requested, whether
`signal.try_acquire_for` succeeded, and the callback.  If stop is requested
the loop exits (second component `false`).  Otherwise, on a successful
acquire with a non-empty deque, the front item is copied out and popped
under lock and the callback is invoked outside the lock; the whole body sits
in `try { ... } catch (...) {}`, so the iteration ends with the loop
continuing whether the callback returned or raised — and the item stays
popped in both cases, since the pop precedes the invocation. -/
def bwIteration {T E : Type} (st : BWState T) (stopRequested acquired : Bool)
    (cb : T → CbOutcome E) : BWState T × Bool :=
  if stopRequested then (st, false)
  else if acquired then
    match st.items with
    | [] => (st, true)
    | x :: rest =>
      match cb x with
      | .ok => (⟨rest⟩, true)
      | .exn _ => (⟨rest⟩, true)
  else (st, true)

/-- The processor loop run over a list of iteration inputs
`(stopRequested, acquired)`, exiting as soon as an iteration says so. -/
def bwRun {T E : Type} (st : BWState T) (steps : List (Bool × Bool))
    (cb : T → CbOutcome E) : BWState T × Bool :=
  match steps with
  | [] => (st, true)
  | s :: rest =>
    let r := bwIteration st s.1 s.2 cb
    if r.2 then bwRun r.1 rest cb else r

/-- Consumer-visible state of a `periodic_worker`: its invocation counter
(periodic_worker.hpp line 120, `uint64_t invokeCounter {0}`). -/
structure PWState where
  invokeCounter : Nat
deriving Repr, DecidableEq

/-- One iteration of `periodic_worker::processor`'s loop
(periodic_worker.hpp lines 140-155): wait out the period (the acquire
result is discarded), then, if stop was not requested, invoke the callback
and *afterwards* increment `invokeCounter`; the body sits in
`try { ... } catch (...) {}`, so a raising callback skips the increment and
the loop continues. -/
def pwIteration {E : Type} (st : PWState) (stopRequested : Bool)
    (outcome : CbOutcome E) : PWState × Bool :=
  if stopRequested then (st, false)
  else
    match outcome with
    | .ok => (⟨st.invokeCounter + 1⟩, true)
    | .exn _ => (st, true)

/-- The periodic loop run over successive callback outcomes, with stop never
requested. -/
def pwRun {E : Type} (st : PWState) (outcomes : List (CbOutcome E)) : PWState :=
  match outcomes with
  | [] => st
  | o :: rest => pwRun (pwIteration st false o).1 rest

theorem bwIteration_continues {T E : Type} (st : BWState T) (acquired : Bool)
    (cb : T → CbOutcome E) : (bwIteration st false acquired cb).2 = true := by
  unfold bwIteration
  cases acquired with
  | false => rfl
  | true =>
    cases st.items with
    | nil => rfl
    | cons x rest =>
      cases h : cb x <;> simp [h]

/-! ## Claim theorems C4 and C9 -/

/-- C4: every error raised inside a callback invocation is caught and
discarded at the consumer-loop boundary.  For every worker state, every run
of loop iterations in which stop is never requested, and every callback —
in particular one that raises on every item — the loop is still set to
continue afterwards; a Worker/Pool iteration that extracts `x :: rest` ends
with the item popped and the loop alive whether the callback returned or
raised; and a Periodic Task iteration whose callback raises also leaves the
loop alive. -/
theorem callback_fault_never_kills_loop (T E : Type) (cb : T → CbOutcome E)
    (st : BWState T) (steps : List (Bool × Bool))
    (hstop : ∀ s ∈ steps, s.1 = false)
    (x : T) (rest : List T) (pst : PWState) (e : E) :
    (bwRun st steps cb).2 = true ∧
    (bwIteration ⟨x :: rest⟩ false true cb).1.items = rest ∧
    (bwIteration ⟨x :: rest⟩ false true cb).2 = true ∧
    (pwIteration pst false (.exn e)).2 = true := by
  refine ⟨?_, ?_, bwIteration_continues _ _ _, rfl⟩
  · induction steps generalizing st with
    | nil => rfl
    | cons s srest ih =>
      have h1 : s.1 = false := hstop s (List.mem_cons_self s srest)
      have hcont : (bwIteration st false s.2 cb).2 = true :=
        bwIteration_continues st s.2 cb
      simp only [bwRun, h1, hcont, if_true]
      exact ih _ (fun t ht => hstop t (List.mem_cons_of_mem s ht))
  · unfold bwIteration
    cases h : cb x <;> simp [h]

/-- C4 witness: a callback raising on every item, two loop iterations on a
worker holding three items, and a raising periodic iteration. -/
theorem callback_fault_never_kills_loop_w :
    (bwRun (⟨[1, 2, 3]⟩ : BWState Nat) [(false, true), (false, true)]
        (fun _ => CbOutcome.exn "boom")).2 = true ∧
    (bwIteration (⟨1 :: [2, 3]⟩ : BWState Nat) false true
        (fun _ => CbOutcome.exn "boom")).1.items = [2, 3] ∧
    (bwIteration (⟨1 :: [2, 3]⟩ : BWState Nat) false true
        (fun _ => CbOutcome.exn "boom")).2 = true ∧
    (pwIteration ⟨5⟩ false (.exn "boom")).2 = true :=
  callback_fault_never_kills_loop Nat String (fun _ => CbOutcome.exn "boom")
    ⟨[1, 2, 3]⟩ [(false, true), (false, true)] (by decide) 1 [2, 3] ⟨5⟩ "boom"

/-- C9: the periodic worker's `invokeCounter` is incremented only after the
callback returns normally: a raising iteration leaves it unchanged, a normal
iteration adds one, and over any run the counter advances by exactly the
number of normally-completed invocations. -/
theorem periodic_counter_counts_completed (E : Type) (e : E) (st : PWState)
    (outcomes : List (CbOutcome E)) :
    (pwIteration st false (.exn e)).1.invokeCounter = st.invokeCounter ∧
    (pwIteration st false (CbOutcome.ok : CbOutcome E)).1.invokeCounter =
      st.invokeCounter + 1 ∧
    (pwRun st outcomes).invokeCounter =
      st.invokeCounter + outcomes.countP (fun o => o.isOk) := by
  refine ⟨rfl, rfl, ?_⟩
  induction outcomes generalizing st with
  | nil => simp [pwRun]
  | cons o rest ih =>
    cases o with
    | ok =>
      simp only [pwRun, pwIteration, List.countP_cons]
      rw [ih]
      simp [CbOutcome.isOk]
      omega
    | exn e' =>
      simp only [pwRun, pwIteration, List.countP_cons]
      rw [ih]
      simp [CbOutcome.isOk]

/-! ## Guarded queue: append and front extraction -/

/-- Producer side of the guarded queue
(`basic_worker::queue` / `simple_pool::queue`, `items.emplace_back` under
lock): append the item at the back. -/
def gqAppend {T : Type} (q : List T) (item : T) : List T :=
  q ++ [item]

/-- Consumer side (`simple_pool::getNextItem`, simple_pool.hpp lines
164-180): if the deque is non-empty, move the front item out, pop the
front, and return it; otherwise return empty. -/
def gqExtract {T : Type} (q : List T) : Option (T × List T) :=
  match q with
  | [] => none
  | x :: rest => some (x, rest)

theorem gqExtract_eq_some {T : Type} {q : List T} {x : T} {rest : List T}
    (h : gqExtract q = some (x, rest)) : q = x :: rest := by
  cases q with
  | nil => simp [gqExtract] at h
  | cons y ys =>
    simp only [gqExtract, Option.some_inj, Prod.mk.injEq] at h
    rw [h.1, h.2]

/-- Repeatedly extract the front until the queue is empty, collecting the
items in extraction order. -/
def gqDrain {T : Type} (q : List T) : List T :=
  match h : gqExtract q with
  | none => []
  | some (x, rest) => x :: gqDrain rest
termination_by q.length
decreasing_by
  have hq := gqExtract_eq_some h
  simp [hq]

theorem gqDrain_id {T : Type} (q : List T) : gqDrain q = q := by
  induction q with
  | nil =>
    rw [gqDrain]
    rfl
  | cons x rest ih =>
    rw [gqDrain]
    simp only [gqExtract]
    rw [ih]

theorem gqAppend_foldl {T : Type} (xs acc : List T) :
    xs.foldl gqAppend acc = acc ++ xs := by
  induction xs generalizing acc with
  | nil => simp
  | cons x rest ih =>
    simp only [List.foldl_cons, ih, gqAppend]
    simp

/-- C6: within one guarded queue, dequeue order equals append order.
Appending any sequence of items to an initially empty queue and then
repeatedly extracting yields exactly that sequence; and each extraction
removes exactly the current front element. -/
theorem guarded_queue_fifo (T : Type) (xs : List T) :
    gqDrain (xs.foldl gqAppend []) = xs ∧
    (∀ (x : T) (rest : List T), gqExtract (x :: rest) = some (x, rest)) := by
  constructor
  · rw [gqAppend_foldl, gqDrain_id]
    simp
  · intro x rest
    rfl

/-! ## Shared-queue pool runs: `basic_pool.hpp` / `simple_pool.hpp`

A run of the shared-queue pool is an arbitrary interleaving of producer
enqueues and consumer-thread extraction steps.  Each extraction is
performed under the queue lock, so in every interleaving exactly one
consumer removes any given queue slot. -/

/-- An event in a pool run: a producer enqueues an item, or the consumer
thread with the given index wins the signal and runs one loop iteration. -/
inductive PoolEvent (T : Type)
  | enq : T → PoolEvent T
  | consume : Nat → PoolEvent T
deriving Repr, DecidableEq

/-- Observable history of a pool run: the pending queue, the callback
invocations performed so far (consumer index paired with the item it
received, in invocation order), and the items enqueued so far. -/
structure PoolHist (T : Type) where
  pending : List T
  processed : List (Nat × T)
  enqueued : List T
deriving Repr, DecidableEq

/-- One event of a pool run.  `enq` is `queue(item)`: append under lock
(basic_pool.hpp lines 121-130).  `consume w` is one successful loop
iteration of consumer `w` (basic_pool.hpp lines 95-114): if the deque is
empty the empty-signal guard skips the invocation; otherwise the front item
is removed under lock and handed to exactly that consumer's callback
invocation. -/
def poolStep {T : Type} (st : PoolHist T) : PoolEvent T → PoolHist T
  | .enq x =>
    { st with pending := st.pending ++ [x], enqueued := st.enqueued ++ [x] }
  | .consume w =>
    match st.pending with
    | [] => st
    | x :: rest =>
      { st with pending := rest, processed := st.processed ++ [(w, x)] }

/-- A pool run from the freshly constructed (empty) pool. -/
def poolRun {T : Type} (evs : List (PoolEvent T)) : PoolHist T :=
  evs.foldl poolStep ⟨[], [], []⟩

theorem poolStep_invariant {T : Type} (st : PoolHist T) (e : PoolEvent T)
    (h : st.processed.map Prod.snd ++ st.pending = st.enqueued) :
    (poolStep st e).processed.map Prod.snd ++ (poolStep st e).pending =
      (poolStep st e).enqueued := by
  cases e with
  | enq x =>
    simp only [poolStep]
    rw [← List.append_assoc, h]
  | consume w =>
    cases hp : st.pending with
    | nil => simpa [poolStep, hp] using h
    | cons x rest =>
      have h2 : List.map Prod.snd st.processed ++ (x :: rest) = st.enqueued := by
        rw [← hp]
        exact h
      simp only [poolStep, hp]
      simpa using h2

/-- C7: in every interleaving of producer enqueues and consumer iterations,
the items handed to callback invocations, in order, form a prefix of the
enqueue order with the still-pending items making up the rest (so no item is
lost or duplicated and the j-th invocation receives the j-th enqueued item —
hence no two invocations receive the same item instance); in every run that
drains the queue, the invocation sequence equals the enqueue sequence, so
for M enqueued items there are exactly M callback invocations. -/
theorem pool_processes_each_item_exactly_once (T : Type)
    (evs : List (PoolEvent T)) :
    ((poolRun evs).processed.map Prod.snd ++ (poolRun evs).pending =
      (poolRun evs).enqueued) ∧
    ((poolRun evs).pending = [] →
      (poolRun evs).processed.map Prod.snd = (poolRun evs).enqueued ∧
      (poolRun evs).processed.length = (poolRun evs).enqueued.length) := by
  have hinv : ∀ (st : PoolHist T),
      st.processed.map Prod.snd ++ st.pending = st.enqueued →
      (evs.foldl poolStep st).processed.map Prod.snd ++
        (evs.foldl poolStep st).pending = (evs.foldl poolStep st).enqueued := by
    induction evs with
    | nil => intro st h; simpa using h
    | cons e rest ih =>
      intro st h
      simp only [List.foldl_cons]
      exact ih (poolStep st e) (poolStep_invariant st e h)
  have hmain : (poolRun evs).processed.map Prod.snd ++ (poolRun evs).pending =
      (poolRun evs).enqueued := hinv ⟨[], [], []⟩ rfl
  refine ⟨hmain, fun hdrained => ?_⟩
  rw [hdrained, List.append_nil] at hmain
  refine ⟨hmain, ?_⟩
  rw [← hmain, List.length_map]

/-- C7 witness: two producers enqueue items 10 and 20, consumers 0 and 1
each take one; the run drains and the invocations are exactly [10, 20]. -/
theorem pool_processes_each_item_exactly_once_w :
    ((poolRun [PoolEvent.enq 10, PoolEvent.enq 20, PoolEvent.consume 0,
        PoolEvent.consume 1]).processed.map Prod.snd =
      (poolRun [PoolEvent.enq 10, PoolEvent.enq 20, PoolEvent.consume 0,
        PoolEvent.consume 1]).enqueued) ∧
    ((poolRun [PoolEvent.enq 10, PoolEvent.enq 20, PoolEvent.consume 0,
        PoolEvent.consume 1]).processed.length =
      (poolRun [PoolEvent.enq 10, PoolEvent.enq 20, PoolEvent.consume 0,
        PoolEvent.consume 1]).enqueued.length) :=
  (pool_processes_each_item_exactly_once Nat
    [PoolEvent.enq 10, PoolEvent.enq 20, PoolEvent.consume 0,
      PoolEvent.consume 1]).2 (by decide)

/-! ## The counting semaphore bound: `std::counting_semaphore<512>`

`basic_worker`, `simple_worker` and `basic_pool` declare their signal as
`std::counting_semaphore<512> signal {0}`.  Per the C++ standard,
`release()` has the precondition that the counter not be raised above the
semaphore's least max value; violating it is undefined behaviour.  The
model makes that precondition explicit: a release that would exceed the
bound yields `none`. -/

/-- The declared least max value of the signal semaphore
(basic_worker.hpp line 118). -/
def semLeastMax : Nat := 512

/-- Models `counting_semaphore::release()` for a semaphore with least max value
`semLeastMax`, with the standard's precondition explicit. -/
def semRelease (counter : Nat) : Option Nat :=
  if counter + 1 ≤ semLeastMax then some (counter + 1) else none

/-- Producer-visible state of a `basic_worker`: the guarded deque plus the
semaphore counter. -/
structure BWQueue (T : Type) where
  items : List T
  signalCount : Nat
deriving Repr, DecidableEq

/-- Embeds `basic_worker::queue` (basic_worker.hpp lines 101-110): append the item
to the (unbounded) deque under lock — this part never fails — then
`signal.release()` outside the lock. -/
def bwQueue {T : Type} (st : BWQueue T) (item : T) : Option (BWQueue T) :=
  match semRelease st.signalCount with
  | some c => some { items := st.items ++ [item], signalCount := c }
  | none => none

/-- A freshly constructed `basic_worker`: empty deque, `signal {0}`. -/
def bwFresh (T : Type) : BWQueue T := ⟨[], 0⟩

/-- Runs `n` consecutive `queue(item)` calls on a fresh worker whose processor
thread never performs a successful acquire. -/
def bwQueueN : Nat → Option (BWQueue Unit)
  | 0 => some (bwFresh Unit)
  | n + 1 => (bwQueueN n).bind (fun st => bwQueue st ())

theorem bwQueueN_eq (n : Nat) :
    bwQueueN n =
      if n ≤ semLeastMax then some ⟨List.replicate n (), n⟩ else none := by
  induction n with
  | zero => rfl
  | succ n ih =>
    rw [bwQueueN, ih]
    by_cases h : n + 1 ≤ semLeastMax
    · have hn : n ≤ semLeastMax := Nat.le_of_succ_le h
      rw [if_pos hn, if_pos h]
      simp [bwQueue, semRelease, h, List.replicate_succ']
    · by_cases hn : n ≤ semLeastMax
      · rw [if_pos hn, if_neg h]
        simp [bwQueue, semRelease, h]
      · rw [if_neg hn, if_neg h]
        rfl

/-- C5 (code bug): 512 consecutive enqueues on a fresh `basic_worker` whose
processor never acquires are fine, but the 513th `queue(item)` call performs
a `signal.release()` that would raise the semaphore counter above the
declared least max value 512 — undefined behaviour per the C++ standard —
so `queue` is not unconditionally safe, contrary to the spec's
"never fails; no backpressure" contract (the deque append itself is
unbounded and never fails; the slip is the fixed semaphore bound). -/
theorem queue_513th_enqueue_violates_semaphore_bound :
    bwQueueN 512 = some ⟨List.replicate 512 (), 512⟩ ∧ bwQueueN 513 = none := by
  constructor
  · rw [bwQueueN_eq]
    rfl
  · rw [bwQueueN_eq]
    rfl

/-! ## Payload-type requirements -/

/-- Constructibility traits of a payload type, as constrained by the C++
`requires` clauses. -/
structure TypeTraits where
  copyConstructible : Bool
  moveConstructible : Bool
deriving Repr, DecidableEq

/-- The `requires` clause of `basic_worker` (basic_worker.hpp lines 55-58):
`std::copy_constructible<T> && std::move_constructible<T>`. -/
def basicWorkerAccepts (tr : TypeTraits) : Bool :=
  tr.copyConstructible && tr.moveConstructible

/-- The `requires` clause of `simple_worker` (simple_worker.hpp lines
94-96), shared by `simple_pool`, `roundrobin_pool` and `resource_pool`:
`std::move_constructible<T>` only. -/
def simpleWorkerAccepts (tr : TypeTraits) : Bool :=
  tr.moveConstructible

/-- Modelled from the spec: "required to be transferable-by-move …
copying is not assumed or required" — every worker/pool operation should
accept any move-constructible payload. -/
def specAccepts (tr : TypeTraits) : Bool :=
  tr.moveConstructible

/-- Per-element operations a consumer loop performs while extracting the
front item. -/
inductive ElemOp
  | defaultConstruct
  | copyAssign
  | moveConstruct
deriving Repr, DecidableEq

/-- basic_worker.hpp lines 141-146: `T item;` then `item = items.front()`
before `items.pop_front()` — a default construction followed by a copy
assignment of the front element. -/
def basicWorkerExtractOps : List ElemOp :=
  [.defaultConstruct, .copyAssign]

/-- simple_worker.hpp lines 73-77 (`popOnDestruct::pop`):
`return std::move(parentDeque.front())` — a move construction only. -/
def simpleWorkerExtractOps : List ElemOp :=
  [.moveConstruct]

/-- C8 counterexample: a move-only payload (move-constructible, not
copy-constructible) satisfies the spec's requirement "transferable-by-move"
but is rejected by `basic_worker`'s `requires` clause, whose consumer loop
moreover copy-assigns the extracted item. -/
theorem basic_worker_requires_copyability :
    basicWorkerAccepts ⟨false, true⟩ = false ∧
    specAccepts ⟨false, true⟩ = true ∧
    ElemOp.copyAssign ∈ basicWorkerExtractOps := by
  decide

/-- C8 (amended): the `simple_worker` family (`simple_worker`,
`simple_pool`, `roundrobin_pool`, `resource_pool`) requires only
move-constructibility of the payload, exactly as the spec states, and its
extraction performs no copy; but `basic_worker` additionally requires
copy-constructibility — any payload it accepts is copy-constructible — and
its extraction copy-assigns the front item. -/
theorem only_move_required_except_basic_worker (tr : TypeTraits) :
    simpleWorkerAccepts tr = specAccepts tr ∧
    ElemOp.copyAssign ∉ simpleWorkerExtractOps ∧
    (basicWorkerAccepts tr = true → tr.copyConstructible = true) := by
  refine ⟨rfl, by decide, fun h => ?_⟩
  simp only [basicWorkerAccepts, Bool.and_eq_true] at h
  exact h.1

/-- C8 amended-claim witness: evaluated on a payload type that is both
copy- and move-constructible. -/
theorem only_move_required_except_basic_worker_w :
    simpleWorkerAccepts ⟨true, true⟩ = specAccepts ⟨true, true⟩ ∧
    ElemOp.copyAssign ∉ simpleWorkerExtractOps ∧
    (⟨true, true⟩ : TypeTraits).copyConstructible = true :=
  ⟨(only_move_required_except_basic_worker ⟨true, true⟩).1,
   (only_move_required_except_basic_worker ⟨true, true⟩).2.1,
   (only_move_required_except_basic_worker ⟨true, true⟩).2.2 rfl⟩

/-! ## Worker move construction -/

/-- Full producer-side state of a `simple_worker` (simple_worker.hpp lines
168-181): the guarded deque, the semaphore counter, the enqueue counter
(`uint64_t queueCounter {0}`) and the callback; `CB` is the callback's
representation (for `basic_worker` the `queueCounter` component is absent
and constantly 0). -/
structure SWorker (T CB : Type) where
  items : List T
  signalCount : Nat
  queueCounter : Nat
  callback : CB
deriving Repr, DecidableEq

/-- The move constructor of `simple_worker` (simple_worker.hpp lines
121-127) and `basic_worker` (basic_worker.hpp lines 83-89): only
`callback(std::move(src.callback))` appears in the initializer list; the
items, the signal and the counter are *not* moved and take their default
member initializers (`{}`, `{0}`, `{0}`). -/
def moveConstruct {T CB : Type} (src : SWorker T CB) : SWorker T CB :=
  { items := [], signalCount := 0, queueCounter := 0, callback := src.callback }

/-- C10: move-constructing a worker transfers only the callback — for every
source state the destination has an empty queue, a zero signal count and a
zero enqueue counter, and no item pending in the source is transferred to
the destination. -/
theorem move_construct_transfers_only_callback (T CB : Type)
    (src : SWorker T CB) :
    (moveConstruct src).items = [] ∧
    (moveConstruct src).signalCount = 0 ∧
    (moveConstruct src).queueCounter = 0 ∧
    (moveConstruct src).callback = src.callback ∧
    (∀ x : T, x ∈ src.items → x ∉ (moveConstruct src).items) := by
  exact ⟨rfl, rfl, rfl, rfl, fun x _ hx => (List.not_mem_nil x) hx⟩

/-- C10 witness: a source worker holding one pending item 4, two
outstanding signals, three enqueues and callback 9. -/
theorem move_construct_transfers_only_callback_w :
    (moveConstruct (⟨[4], 2, 3, 9⟩ : SWorker Nat Nat)).items = [] ∧
    (4 : Nat) ∉ (moveConstruct (⟨[4], 2, 3, 9⟩ : SWorker Nat Nat)).items :=
  ⟨(move_construct_transfers_only_callback Nat Nat ⟨[4], 2, 3, 9⟩).1,
   (move_construct_transfers_only_callback Nat Nat ⟨[4], 2, 3, 9⟩).2.2.2.2 4
     (by decide)⟩

end AsynchronyLib
